import Mathlib

/-!
Verification of the listing-extraction service and the PDF merge helper of
the sase-backend repository, against its specification.

The TypeScript source is shallowly embedded: every pure computation of
`src/listing/listing.service.ts` (the text normalizer `clean`, the
deduplication helpers `uniq` and `dedupe`, the amenity / fees-and-policies
parsers, and the orchestration in `scrapeApartmentData`) is translated to an
executable Lean definition.  DOM reads (`querySelector`, `textContent`,
attributes) are modelled by structures holding exactly the values those
queries return on a page: an `Option String` for a text node that may be
absent, a list for a `querySelectorAll` result, and so on.  Effectful steps
of the orchestrator (cache lookup, browser session, per-section extractor
runs, cache write) are modelled by an environment record carrying each
step's outcome, mirroring the `try`/`catch` structure of the source.
-/

namespace SaseBackend

/-! ## Text normalizer: `clean` (listing.service.ts, repeated in each
`page.evaluate` block as `input?.replace(/\s+/g, ' ').trim() ?? ''`). -/

/-- Model of the JavaScript regex class `\s` restricted to the ASCII
whitespace characters (space, tab, line feed, vertical tab, form feed,
carriage return). -/
def isWs (c : Char) : Bool :=
  c = ' ' || c = '\t' || c = '\n' || c = '\r' ||
    c = Char.ofNat 11 || c = Char.ofNat 12

/-- `replace(/\s+/g, ' ')` as a left-to-right scan: `inRun` records whether
the previous character was part of a whitespace run that has already been
replaced by a single `' '`. -/
def collapseAux : Bool → List Char → List Char
  | _, [] => []
  | inRun, c :: cs =>
    if isWs c then
      if inRun then collapseAux true cs else ' ' :: collapseAux true cs
    else c :: collapseAux false cs

/-- `String.prototype.trim`, left half: drop leading whitespace. -/
def trimL (l : List Char) : List Char := l.dropWhile isWs

/-- `String.prototype.trim`, right half: drop trailing whitespace. -/
def trimR (l : List Char) : List Char := (l.reverse.dropWhile isWs).reverse

/-- Character-level body of `clean`: collapse whitespace runs, then trim. -/
def cleanChars (l : List Char) : List Char :=
  trimR (trimL (collapseAux false l))

/-- `clean(input) = input?.replace(/\s+/g, ' ').trim() ?? ''`; `none` models
a `null`/`undefined` argument. -/
def clean : Option String → String
  | none => ""
  | some s => String.mk (cleanChars s.data)

/-- Two adjacent characters are not both whitespace. -/
def noWsPairB (a b : Char) : Bool := !(isWs a && isWs b)

/-- A string is whitespace-normalized: no two adjacent whitespace
characters, and neither end is whitespace. -/
def Normalized (s : String) : Prop :=
  List.Chain' (fun a b => noWsPairB a b = true) s.data ∧
    s.data.head?.all (fun c => !isWs c) = true ∧
    s.data.getLast?.all (fun c => !isWs c) = true

theorem collapseAux_true_head : ∀ (l : List Char) (c : Char),
    (collapseAux true l).head? = some c → isWs c = false := by
  intro l
  induction l with
  | nil => intro c h; simp [collapseAux] at h
  | cons a as ih =>
    intro c h
    by_cases ha : isWs a = true
    · rw [collapseAux, if_pos ha, if_pos rfl] at h
      exact ih c h
    · rw [collapseAux, if_neg ha] at h
      simp at h
      subst h
      simpa using ha

theorem collapseAux_chain : ∀ (l : List Char) (b : Bool),
    List.Chain' (fun a b => noWsPairB a b = true) (collapseAux b l) := by
  intro l
  induction l with
  | nil => intro b; simp [collapseAux]
  | cons a as ih =>
    intro b
    by_cases ha : isWs a = true
    · cases b with
      | true =>
        rw [collapseAux, if_pos ha, if_pos rfl]
        exact ih true
      | false =>
        rw [collapseAux, if_pos ha, if_neg (by simp)]
        rw [List.chain'_cons']
        refine ⟨?_, ih true⟩
        intro y hy
        have hns := collapseAux_true_head as y hy
        simp [noWsPairB, hns]
    · rw [collapseAux, if_neg ha]
      rw [List.chain'_cons']
      refine ⟨?_, ih false⟩
      intro y _
      simp [noWsPairB, Bool.not_eq_true _ ▸ (by simpa using ha : isWs a = false)]

theorem collapseAux_ws_mem : ∀ (l : List Char) (b : Bool) (c : Char),
    c ∈ collapseAux b l → isWs c = true → c = ' ' := by
  intro l
  induction l with
  | nil => intro b c h; simp [collapseAux] at h
  | cons a as ih =>
    intro b c h hws
    by_cases ha : isWs a = true
    · cases b with
      | true =>
        rw [collapseAux, if_pos ha, if_pos rfl] at h
        exact ih true c h hws
      | false =>
        rw [collapseAux, if_pos ha, if_neg (by simp)] at h
        rcases List.mem_cons.mp h with h1 | h2
        · exact h1
        · exact ih true c h2 hws
    · rw [collapseAux, if_neg ha] at h
      rcases List.mem_cons.mp h with h1 | h2
      · subst h1; simp [hws] at ha
      · exact ih false c h2 hws

/-- `cleanChars l` sits inside `collapseAux false l`: trimming only removes
characters from the two ends. -/
theorem cleanChars_sandwiched (l : List Char) :
    cleanChars l <:+: collapseAux false l := by
  obtain ⟨s, hs⟩ : trimL (collapseAux false l) <:+ collapseAux false l :=
    List.dropWhile_suffix isWs
  have hpre : cleanChars l <+: trimL (collapseAux false l) := by
    show ((trimL (collapseAux false l)).reverse.dropWhile isWs).reverse
        <+: trimL (collapseAux false l)
    rw [← List.reverse_suffix, List.reverse_reverse]
    exact List.dropWhile_suffix isWs
  obtain ⟨t, ht⟩ := hpre
  refine ⟨s, t, ?_⟩
  calc s ++ cleanChars l ++ t = s ++ (cleanChars l ++ t) := by
        rw [List.append_assoc]
    _ = s ++ trimL (collapseAux false l) := by rw [ht]
    _ = collapseAux false l := hs

theorem cleanChars_chain (l : List Char) :
    List.Chain' (fun a b => noWsPairB a b = true) (cleanChars l) :=
  List.Chain'.infix (collapseAux_chain l false) (cleanChars_sandwiched l)

theorem head?_of_append_eq {l t r : List α} {c : α}
    (h : l ++ t = r) (hc : l.head? = some c) : r.head? = some c := by
  cases l with
  | nil => simp at hc
  | cons x xs => simp at hc; subst hc; rw [← h]; rfl

theorem cleanChars_head (l : List Char) (c : Char)
    (h : (cleanChars l).head? = some c) : isWs c = false := by
  unfold cleanChars trimR at h
  have hpre : ((trimL (collapseAux false l)).reverse.dropWhile isWs).reverse
      <+: trimL (collapseAux false l) := by
    rw [← List.reverse_suffix, List.reverse_reverse]
    exact List.dropWhile_suffix isWs
  obtain ⟨t, ht⟩ := hpre
  have hhead := head?_of_append_eq ht h
  have hdrop := List.head?_dropWhile_not isWs (collapseAux false l)
  unfold trimL at hhead
  rw [hhead] at hdrop
  exact hdrop

theorem cleanChars_getLast (l : List Char) (c : Char)
    (h : (cleanChars l).getLast? = some c) : isWs c = false := by
  unfold cleanChars trimR at h
  rw [List.getLast?_reverse] at h
  have hdrop := List.head?_dropWhile_not isWs (trimL (collapseAux false l)).reverse
  rw [h] at hdrop
  exact hdrop

theorem cleanChars_ws_mem (l : List Char) (c : Char)
    (hmem : c ∈ cleanChars l) (hws : isWs c = true) : c = ' ' := by
  obtain ⟨s, t, hst⟩ := cleanChars_sandwiched l
  have : c ∈ collapseAux false l := by
    rw [← hst]
    simp [hmem]
  exact collapseAux_ws_mem l false c this hws

theorem clean_normalized (x : Option String) : Normalized (clean x) := by
  cases x with
  | none =>
    refine ⟨?_, ?_, ?_⟩ <;> simp [clean, String.data]
  | some s =>
    refine ⟨cleanChars_chain s.data, ?_, ?_⟩
    · cases hh : (cleanChars s.data).head? with
      | none => simp [clean, hh]
      | some c =>
        have := cleanChars_head s.data c hh
        simp [clean, hh, this]
    · cases hh : (cleanChars s.data).getLast? with
      | none => simp [clean, hh]
      | some c =>
        have := cleanChars_getLast s.data c hh
        simp [clean, hh, this]

theorem clean_ws_space (x : Option String) :
    ((clean x).data.all (fun c => !isWs c || c = ' ')) = true := by
  rw [List.all_eq_true]
  intro c hc
  cases x with
  | none => simp [clean, String.data] at hc
  | some s =>
    by_cases hws : isWs c = true
    · have := cleanChars_ws_mem s.data c (by simpa [clean] using hc) hws
      simp [this]
    · simp [Bool.not_eq_true _ ▸ (by simpa using hws : isWs c = false)]

/-- C4: the text normalizer `clean` maps `null`/absent input to the empty
string, and every output is whitespace-normalized: no two adjacent
whitespace characters (hence no double spaces), no leading or trailing
whitespace, and every residual whitespace character is a single space. -/
theorem clean_spec :
    clean none = "" ∧
      ∀ x : Option String,
        Normalized (clean x) ∧
          ((clean x).data.all (fun c => !isWs c || c = ' ')) = true := by
  exact ⟨rfl, fun x => ⟨clean_normalized x, clean_ws_space x⟩⟩

/-! ## Deduplication helpers.
`uniq = (arr) => Array.from(new Set(arr.filter(Boolean)))` and
`dedupe = (arr) => Array.from(new Set(arr))` in listing.service.ts.
A JavaScript `Set` iterates in insertion order, so `Array.from(new Set(a))`
keeps the first occurrence of each distinct element. -/

/-- One insertion into a JavaScript `Set`, represented as the list of its
elements in insertion order. -/
def jsSetAdd [DecidableEq α] (acc : List α) (a : α) : List α :=
  if a ∈ acc then acc else acc ++ [a]

/-- `Array.from(new Set(l))`: insert every element left to right. -/
def jsSetOfList [DecidableEq α] (l : List α) : List α :=
  l.foldl jsSetAdd []

/-- `uniq` from the amenities extractor: `filter(Boolean)` drops the empty
string (the only falsy string), then the `Set` deduplicates. -/
def uniq (arr : List String) : List String :=
  jsSetOfList (arr.filter (fun s => s ≠ ""))

/-- `dedupe` from the amenities post-processing: plain `Set` dedup without
the falsy filter. -/
def dedupe [DecidableEq α] (arr : List α) : List α := jsSetOfList arr

/-- Spec-side description of order-preserving deduplication (written from
the spec's words "keeps the first occurrence of each distinct element in
first-seen order"): an element is kept when it has not been seen before. -/
def specFirstSeenDedup [DecidableEq α] (seen : List α) : List α → List α
  | [] => []
  | a :: l =>
    if a ∈ seen then specFirstSeenDedup seen l
    else a :: specFirstSeenDedup (a :: seen) l

theorem specFirstSeenDedup_congr [DecidableEq α] (l : List α) :
    ∀ s₁ s₂ : List α, (∀ b, b ∈ s₁ ↔ b ∈ s₂) →
      specFirstSeenDedup s₁ l = specFirstSeenDedup s₂ l := by
  induction l with
  | nil => intro s₁ s₂ _; rfl
  | cons a l ih =>
    intro s₁ s₂ hmem
    by_cases ha : a ∈ s₁
    · rw [specFirstSeenDedup, if_pos ha,
        specFirstSeenDedup, if_pos ((hmem a).mp ha)]
      exact ih s₁ s₂ hmem
    · rw [specFirstSeenDedup, if_neg ha,
        specFirstSeenDedup, if_neg (fun h => ha ((hmem a).mpr h))]
      rw [ih (a :: s₁) (a :: s₂) (by intro b; simp [hmem b])]

theorem foldl_jsSetAdd_eq [DecidableEq α] (l : List α) :
    ∀ acc : List α, List.foldl jsSetAdd acc l = acc ++ specFirstSeenDedup acc l := by
  induction l with
  | nil => intro acc; simp [specFirstSeenDedup]
  | cons a l ih =>
    intro acc
    by_cases ha : a ∈ acc
    · rw [List.foldl_cons]
      rw [show jsSetAdd acc a = acc from if_pos ha]
      rw [ih acc, specFirstSeenDedup, if_pos ha]
    · rw [List.foldl_cons]
      rw [show jsSetAdd acc a = acc ++ [a] from if_neg ha]
      rw [ih (acc ++ [a]), specFirstSeenDedup, if_neg ha]
      rw [specFirstSeenDedup_congr l (acc ++ [a]) (a :: acc)
        (by intro b; simp; tauto)]
      simp

theorem jsSetOfList_eq_spec [DecidableEq α] (l : List α) :
    jsSetOfList l = specFirstSeenDedup [] l := by
  rw [jsSetOfList, foldl_jsSetAdd_eq]
  rfl

theorem specFirstSeenDedup_mem [DecidableEq α] (l : List α) :
    ∀ (seen : List α) (b : α),
      b ∈ specFirstSeenDedup seen l ↔ b ∈ l ∧ b ∉ seen := by
  induction l with
  | nil => intro seen b; simp [specFirstSeenDedup]
  | cons a l ih =>
    intro seen b
    by_cases ha : a ∈ seen
    · rw [specFirstSeenDedup, if_pos ha, ih]
      constructor
      · rintro ⟨h1, h2⟩; exact ⟨List.mem_cons_of_mem a h1, h2⟩
      · rintro ⟨h1, h2⟩
        rcases List.mem_cons.mp h1 with rfl | h1
        · exact absurd ha h2
        · exact ⟨h1, h2⟩
    · rw [specFirstSeenDedup, if_neg ha]
      simp only [List.mem_cons, ih]
      constructor
      · rintro (rfl | ⟨h1, h2⟩)
        · exact ⟨Or.inl rfl, ha⟩
        · exact ⟨Or.inr h1, fun hb => h2 (Or.inr hb)⟩
      · rintro ⟨rfl | h1, h2⟩
        · exact Or.inl rfl
        · by_cases hba : b = a
          · exact Or.inl hba
          · refine Or.inr ⟨h1, ?_⟩
            rintro (h | h)
            · exact hba h
            · exact h2 h

theorem specFirstSeenDedup_nodup [DecidableEq α] (l : List α) :
    ∀ seen : List α, (specFirstSeenDedup seen l).Nodup := by
  induction l with
  | nil => intro seen; simp [specFirstSeenDedup]
  | cons a l ih =>
    intro seen
    by_cases ha : a ∈ seen
    · rw [specFirstSeenDedup, if_pos ha]; exact ih seen
    · rw [specFirstSeenDedup, if_neg ha]
      refine List.nodup_cons.mpr ⟨?_, ih (a :: seen)⟩
      intro hmem
      exact ((specFirstSeenDedup_mem l (a :: seen) a).mp hmem).2 (by simp)

theorem specFirstSeenDedup_sublist [DecidableEq α] (l : List α) :
    ∀ seen : List α, List.Sublist (specFirstSeenDedup seen l) l := by
  induction l with
  | nil => intro seen; simp [specFirstSeenDedup]
  | cons a l ih =>
    intro seen
    by_cases ha : a ∈ seen
    · rw [specFirstSeenDedup, if_pos ha]
      exact (ih seen).cons a
    · rw [specFirstSeenDedup, if_neg ha]
      exact (ih (a :: seen)).cons₂ a

theorem jsSetOfList_nodup [DecidableEq α] (l : List α) :
    (jsSetOfList l).Nodup := by
  rw [jsSetOfList_eq_spec]
  exact specFirstSeenDedup_nodup l []

/-- C5 counterexample: on the input `[""]` the element `""` occurs in the
input but not in `uniq [""]`, so `uniq` does not keep the first occurrence
of every distinct element. -/
theorem uniq_drops_empty_string :
    ("" ∈ ([""] : List String)) ∧ "" ∉ uniq [""] ∧ uniq [""] = [] := by
  refine ⟨by simp, ?_, ?_⟩ <;> simp [uniq, jsSetOfList, jsSetAdd]

/-- C5 (amended): `uniq` first removes empty strings, then keeps the first
occurrence of each remaining distinct element in first-seen order and
removes all repeats; in particular on inputs without empty strings it is
exactly first-seen-order deduplication, and
`uniq ["A","B","A","C"] = ["A","B","C"]`. -/
theorem uniq_spec :
    (∀ l : List String,
        uniq l = specFirstSeenDedup [] (l.filter (fun s => s ≠ "")) ∧
          (uniq l).Nodup ∧
          (∀ a, a ∈ uniq l ↔ (a ∈ l ∧ a ≠ "")) ∧
          List.Sublist (uniq l) l) ∧
      uniq ["A", "B", "A", "C"] = ["A", "B", "C"] := by
  constructor
  · intro l
    refine ⟨jsSetOfList_eq_spec _, jsSetOfList_nodup _, ?_, ?_⟩
    · intro a
      rw [uniq, jsSetOfList_eq_spec, specFirstSeenDedup_mem]
      simp [List.mem_filter]
    · have h1 : List.Sublist (uniq l) (l.filter (fun s => s ≠ "")) := by
        rw [uniq, jsSetOfList_eq_spec]
        exact specFirstSeenDedup_sublist _ []
      exact h1.trans (List.filter_sublist l)
  · rfl

/-! ## Amenities extractor (`scrapeAmenities` / `parseSectionByTitle`).
The DOM is modelled by the values the extractor's queries return:
`rawText` is a node's `textContent` (`none` for a missing text node),
`iconTexts` the text of every `.amenityCard .amenityLabel` under the
section container, and `specGroups` the `.spec .specGroup` elements with
their `.specGroupName` text and `.specInfo > span` texts. -/

structure AmenityGroup where
  header : String
  items : List String
deriving DecidableEq

structure AmenitySection where
  title : String
  icons : List String
  groups : List AmenityGroup
deriving DecidableEq

structure AmenitiesResult where
  community : Option AmenitySection
  apartment : Option AmenitySection
deriving DecidableEq

structure SpecGroupEl where
  headerText : Option String
  itemTexts : List (Option String)

structure AmenContainerEl where
  iconTexts : List (Option String)
  specGroups : List SpecGroupEl

structure SectionTitleEl where
  rawText : Option String
  container : Option AmenContainerEl

/-- The `h3.sectionTitle` elements of the page, with the container each
one's `parentElement` provides (`none` models a missing parent). -/
structure AmenDoc where
  sectionTitles : List SectionTitleEl

/-- `String.prototype.toLowerCase` restricted to ASCII letters, as a map
over the character list. -/
def lowerStr (s : String) : String := String.mk (s.data.map Char.toLower)

/-- JavaScript `a || b` on strings: the empty string is the only falsy
string. -/
def jsOrS (a b : String) : String := if a = "" then b else a

/-- JavaScript `a || b` where `a` may be `null`/`undefined`. -/
def jsOrOptS (a : Option String) (b : String) : String :=
  match a with
  | none => b
  | some s => if s = "" then b else s

/-- `parseSectionByTitle` from `scrapeAmenities`: find the first
`h3.sectionTitle` whose cleaned text matches the requested title
case-insensitively, then read icons and spec groups from its parent
container.  A group is pushed when its raw header or raw item list is
non-empty; its items are deduplicated per group with `uniq`. -/
def parseSectionByTitle (doc : AmenDoc) (sectionTitleText : String) :
    Option AmenitySection :=
  match doc.sectionTitles.find?
      (fun h => lowerStr (clean h.rawText) == lowerStr sectionTitleText) with
  | none => none
  | some titleEl =>
    match titleEl.container with
    | none => none
    | some container =>
      let icons := container.iconTexts.map (fun t => clean t)
      let groups := container.specGroups.foldl
        (fun acc group =>
          let header := clean group.headerText
          let items := group.itemTexts.map (fun t => clean t)
          if header ≠ "" ∨ items ≠ [] then
            acc ++ [⟨header, uniq items⟩]
          else acc) []
      some ⟨clean (some (jsOrOptS titleEl.rawText sectionTitleText)),
        uniq icons, groups⟩

/-- The post-`evaluate` pass of `scrapeAmenities`: re-deduplicate the
icons and each group's items with `dedupe` (a plain insertion-order set). -/
def postDedupSection (s : AmenitySection) : AmenitySection :=
  ⟨s.title, dedupe s.icons,
    s.groups.map (fun g => ⟨g.header, dedupe g.items⟩)⟩

/-- `scrapeAmenities`: parse the two known sections and apply the second
deduplication pass to whichever of them is present. -/
def scrapeAmenities (doc : AmenDoc) : AmenitiesResult :=
  ⟨(parseSectionByTitle doc "Community Amenities").map postDedupSection,
    (parseSectionByTitle doc "Apartment Features").map postDedupSection⟩

/-- A page whose Community Amenities section has two spec groups that both
contain the item `"X"`. -/
def amenDupDoc : AmenDoc :=
  ⟨[⟨some "Community Amenities",
    some ⟨[], [⟨some "G1", [some "X"]⟩, ⟨some "G2", [some "X"]⟩]⟩⟩]⟩

/-- C6 counterexample: on `amenDupDoc` the item `"X"` appears under both
group headers of the parsed Community section, so group items are not
deduplicated across the section — only per group. -/
theorem amenities_items_not_section_deduped :
    (scrapeAmenities amenDupDoc).community.map
        (fun s => ((s.groups.map AmenityGroup.items).flatten.count "X",
          s.groups.length))
      = some (2, 2) := by
  decide

theorem postDedupSection_nodup (s : AmenitySection) :
    (postDedupSection s).icons.Nodup ∧
      ∀ g ∈ (postDedupSection s).groups, g.items.Nodup := by
  refine ⟨jsSetOfList_nodup _, ?_⟩
  intro g hg
  rcases List.mem_map.mp hg with ⟨g₀, _, rfl⟩
  exact jsSetOfList_nodup _

/-- C6 (amended): in every section produced by the Amenities extractor the
icon list is duplicate-free (icons are deduplicated once per section), and
each group's item list is duplicate-free (items are deduplicated per
group, not across the groups of the section). -/
theorem amenities_dedup_spec (doc : AmenDoc) (sec : AmenitySection)
    (h : (scrapeAmenities doc).community = some sec ∨
      (scrapeAmenities doc).apartment = some sec) :
    sec.icons.Nodup ∧ ∀ g ∈ sec.groups, g.items.Nodup := by
  have key : ∀ x : Option AmenitySection,
      x.map postDedupSection = some sec →
        sec.icons.Nodup ∧ ∀ g ∈ sec.groups, g.items.Nodup := by
    intro x hx
    cases x with
    | none => simp at hx
    | some s₀ =>
      have heq : postDedupSection s₀ = sec := by simpa using hx
      rw [← heq]
      exact postDedupSection_nodup s₀
  rcases h with h | h
  · exact key _ h
  · exact key _ h

/-- Witness for the amended C6 theorem at the concrete page `amenDupDoc`. -/
theorem amenities_dedup_spec_witness :
    ((scrapeAmenities amenDupDoc).community =
        some ⟨"Community Amenities", [],
          [⟨"G1", ["X"]⟩, ⟨"G2", ["X"]⟩]⟩ ∨
      (scrapeAmenities amenDupDoc).apartment =
        some ⟨"Community Amenities", [],
          [⟨"G1", ["X"]⟩, ⟨"G2", ["X"]⟩]⟩) ∧
      (([] : List String).Nodup ∧
        ∀ g ∈ [(⟨"G1", ["X"]⟩ : AmenityGroup), ⟨"G2", ["X"]⟩],
          g.items.Nodup) := by
  refine ⟨Or.inl (by decide),
    amenities_dedup_spec amenDupDoc
      ⟨"Community Amenities", [], [⟨"G1", ["X"]⟩, ⟨"G2", ["X"]⟩]⟩
      (Or.inl (by decide))⟩

/-! ## Fees & Policies extractor (`scrapeFeesAndPolicies`).
`Card`, `Row`, `TabResult`, `DetailsCard` mirror listing.types.ts
(`comments?: string | null` becomes `Option String`, with `none` for both
`null` and an absent field; `tooltip?: string` likewise).  The DOM side is
modelled by the values the parser's queries return on a list element and a
card element. -/

structure Row where
  name : String
  value : String
  tooltip : Option String
deriving DecidableEq

structure Card where
  header : String
  rows : List Row
  comments : Option String
deriving DecidableEq

structure TabResult where
  tab : String
  cards : List Card
deriving DecidableEq

structure DetailsCard where
  header : String
  items : List String
deriving DecidableEq

structure FeesPoliciesResult where
  tabs : List TabResult
  details : List DetailsCard
deriving DecidableEq

/-- One `li` of a card's `.component-list`: whether it contains a
`.header-column`, whether it has the `no-border` class or a `.comments`
descendant, and the texts of its name column, value column and tooltip
node. -/
structure LiEl where
  hasHeaderColumn : Bool
  noBorderClass : Bool
  hasCommentsEl : Bool
  leftText : Option String
  rightText : Option String
  tooltipText : Option String

/-- One `.feesPoliciesCard` element: the text of its two possible header
locations, its list items, and the text of its `.comments` node. -/
structure CardEl where
  headerColText : Option String
  componentHeaderColText : Option String
  listItems : List LiEl
  commentsText : Option String

/-- `parseCard`: header from the first non-empty of the two header
locations; each list row is skipped when it is a header row or a comment
row, and kept when its cleaned name or value is non-empty; the cleaned
comment text is mapped to `null` when empty. -/
def parseCard (el : CardEl) : Card :=
  let header := jsOrS (clean el.headerColText)
    (clean el.componentHeaderColText)
  let rows := el.listItems.foldl
    (fun acc li =>
      if li.hasHeaderColumn then acc
      else if li.noBorderClass || li.hasCommentsEl then acc
      else
        let name := clean li.leftText
        let value := clean li.rightText
        let tooltip := clean li.tooltipText
        if name ≠ "" ∨ value ≠ "" then
          acc ++ [⟨name, value, if tooltip = "" then none else some tooltip⟩]
        else acc) []
  let commentsClean := clean el.commentsText
  ⟨header, rows, if commentsClean = "" then none else some commentsClean⟩

/-- The retention test of `parseTabPanel`:
`c.header || c.rows.length || (c.comments && c.comments.length)`. -/
def cardKept (c : Card) : Bool :=
  c.header ≠ "" || !c.rows.isEmpty ||
    (match c.comments with
     | some s => s ≠ ""
     | none => false)

/-- `parseTabPanel`: parse every `.feesPoliciesCard` of the panel and keep
only the cards passing the retention test. -/
def parseTabPanel (cardEls : List CardEl) (tabName : String) : TabResult :=
  ⟨tabName, (cardEls.map parseCard).filter cardKept⟩

/-- C7: a parsed card is included in `TabResult.cards` iff it has a
non-empty header, at least one row, or non-empty comments; a card with
empty header, no rows and `null` comments is dropped, and a card whose
only content is comments `"x"` is retained. -/
theorem parseTabPanel_retention :
    (∀ (cardEls : List CardEl) (name : String) (c : Card),
        c ∈ (parseTabPanel cardEls name).cards ↔
          (c ∈ cardEls.map parseCard ∧
            (c.header ≠ "" ∨ c.rows ≠ [] ∨
              ∃ s, c.comments = some s ∧ s ≠ ""))) ∧
      cardKept ⟨"", [], none⟩ = false ∧
      cardKept ⟨"", [], some "x"⟩ = true ∧
      (parseTabPanel [⟨none, none, [], none⟩] "t").cards = [] ∧
      (parseTabPanel [⟨none, none, [], some "x"⟩] "t").cards
        = [⟨"", [], some "x"⟩] := by
  refine ⟨?_, by decide, by decide, by decide, by decide⟩
  intro cardEls name c
  rw [parseTabPanel]
  simp only [List.mem_filter]
  constructor
  · rintro ⟨h1, h2⟩
    refine ⟨h1, ?_⟩
    rw [cardKept] at h2
    simp only [Bool.or_eq_true, decide_eq_true_eq, Bool.not_eq_true',
      List.isEmpty_eq_false] at h2
    rcases h2 with (h | h) | h
    · exact Or.inl h
    · exact Or.inr (Or.inl (by simpa using h))
    · cases hc : c.comments with
      | none => rw [hc] at h; simp at h
      | some s =>
        rw [hc] at h
        exact Or.inr (Or.inr ⟨s, rfl, by simpa using h⟩)
  · rintro ⟨h1, h2⟩
    refine ⟨h1, ?_⟩
    rw [cardKept]
    simp only [Bool.or_eq_true, decide_eq_true_eq, Bool.not_eq_true',
      List.isEmpty_eq_false]
    rcases h2 with h | h | ⟨s, hs, hne⟩
    · exact Or.inl (Or.inl h)
    · exact Or.inl (Or.inr (by simpa using h))
    · rw [hs]
      exact Or.inr (by simpa using hne)

/-- C10: in every card produced by `parseCard` the comments field is
either `none` or a non-empty whitespace-normalized string, and therefore
the retention test is equivalent to: non-empty header, or at least one
row, or non-null comments. -/
theorem parseCard_comments_invariant (el : CardEl) :
    ((parseCard el).comments = none ∨
        ∃ s, (parseCard el).comments = some s ∧ s ≠ "" ∧ Normalized s) ∧
      (cardKept (parseCard el) = true ↔
        ((parseCard el).header ≠ "" ∨ (parseCard el).rows ≠ [] ∨
          (parseCard el).comments ≠ none)) := by
  have hcom : (parseCard el).comments =
      (if clean el.commentsText = "" then none
       else some (clean el.commentsText)) := rfl
  constructor
  · rw [hcom]
    by_cases h : clean el.commentsText = ""
    · exact Or.inl (by rw [if_pos h])
    · refine Or.inr ⟨clean el.commentsText, by rw [if_neg h], h, ?_⟩
      exact clean_normalized el.commentsText
  · rw [cardKept]
    simp only [Bool.or_eq_true, decide_eq_true_eq, Bool.not_eq_true',
      List.isEmpty_eq_false]
    constructor
    · rintro ((h | h) | h)
      · exact Or.inl h
      · exact Or.inr (Or.inl (by simpa using h))
      · cases hc : (parseCard el).comments with
        | none => rw [hc] at h; simp at h
        | some s => exact Or.inr (Or.inr (by simp [hc]))
    · rintro (h | h | h)
      · exact Or.inl (Or.inl h)
      · exact Or.inl (Or.inr (by simpa using h))
      · refine Or.inr ?_
        rw [hcom] at h ⊢
        by_cases hcl : clean el.commentsText = ""
        · rw [if_pos hcl] at h; exact absurd rfl h
        · rw [if_neg hcl]
          simpa using hcl

/-- One `button[role='tab']` of the tab-button group: its `textContent`,
its `id` attribute (the empty string when absent) and its `aria-controls`
attribute. -/
structure TabButtonEl where
  textContent : Option String
  idAttr : String
  ariaControls : Option String

/-- One generic `#pricingView [role='tabpanel']` element for the tertiary
scan: its `aria-labelledby` attribute, its `id`, and its
`.feesPoliciesCard` children. -/
structure GenericPanelEl where
  ariaLabelledby : Option String
  idAttr : String
  cards : List CardEl

/-- One `.feesPoliciesCard.with-bullets-card` of the details section. -/
structure DetailsCardEl where
  headerText : Option String
  columnTexts : List (Option String)

/-- The page state `scrapeFeesAndPolicies` queries: the tab buttons (empty
when no tab-button group is found), a panel lookup by `id` for the
button-referenced panels, the four well-known fixed panels (each the card
elements of the panel when the panel is present), the generic tab panels,
a text lookup by element `id` for `aria-labelledby` resolution, and the
details cards. -/
structure FeesDoc where
  tabButtons : List TabButtonEl
  panelsById : List (String × List CardEl)
  petsPanel : Option (List CardEl)
  parkingPanel : Option (List CardEl)
  requiredFeesPanel : Option (List CardEl)
  storagePanel : Option (List CardEl)
  genericPanels : List GenericPanelEl
  elementsTextById : List (String × Option String)
  detailCardEls : List DetailsCardEl

/-- First association-list entry with the given key, as
`document.getElementById` restricted to the modelled elements; a key of
`""` matches nothing. -/
def lookupById (m : List (String × β)) (i : String) : Option β :=
  if i = "" then none else (m.find? (fun p => p.1 == i)).map Prod.snd

/-- Primary tab discovery: for each tab button, derive the label from
`textContent || id || panelId`, resolve the panel via `aria-controls`, and
parse it when found. -/
def primaryTabs (doc : FeesDoc) : List TabResult :=
  doc.tabButtons.foldl
    (fun acc btn =>
      let panelId := btn.ariaControls.getD ""
      let tabName := clean (some (jsOrOptS btn.textContent
        (jsOrS btn.idAttr panelId)))
      match lookupById doc.panelsById panelId with
      | some p => acc ++ [parseTabPanel p tabName]
      | none => acc) []

/-- Secondary tab discovery: the four well-known fixed panels, in the
source's order, including only those present. -/
def secondaryTabs (doc : FeesDoc) : List TabResult :=
  (match doc.petsPanel with
   | some p => [parseTabPanel p "Pets"]
   | none => []) ++
  (match doc.parkingPanel with
   | some p => [parseTabPanel p "Parking"]
   | none => []) ++
  (match doc.requiredFeesPanel with
   | some p => [parseTabPanel p "Required Fees"]
   | none => []) ++
  (match doc.storagePanel with
   | some p => [parseTabPanel p "Storage"]
   | none => [])

/-- Tertiary tab discovery: every generic tab panel, labelled from its
`aria-labelledby` target's text, else its own `id`, else
`"Fees/Policies"`. -/
def tertiaryTabs (doc : FeesDoc) : List TabResult :=
  doc.genericPanels.map
    (fun panel =>
      let labelId := panel.ariaLabelledby.getD ""
      let labelTarget :=
        match lookupById doc.elementsTextById labelId with
        | none => ""
        | some none => ""
        | some (some t) => t
      let label := jsOrS (clean (some labelTarget))
        (clean (some panel.idAttr))
      parseTabPanel panel.cards (jsOrS label "Fees/Policies"))

/-- The tab part of `scrapeFeesAndPolicies`: primary when tab buttons
exist, otherwise the fixed panels, falling back to the generic scan only
when the fixed panels yielded no tabs. -/
def feesTabs (doc : FeesDoc) : List TabResult :=
  if doc.tabButtons.isEmpty then
    let tabs := secondaryTabs doc
    if tabs.isEmpty then tertiaryTabs doc else tabs
  else primaryTabs doc

/-- `parseDetails`: bulleted detail cards outside the tab structure. -/
def parseDetails (doc : FeesDoc) : List DetailsCard :=
  doc.detailCardEls.foldl
    (fun acc card =>
      let header := clean card.headerText
      let items := card.columnTexts.foldl
        (fun acc2 c =>
          let text := clean c
          if text ≠ "" then acc2 ++ [text] else acc2) []
      if header ≠ "" ∨ items ≠ [] then acc ++ [⟨header, items⟩] else acc) []

/-- `scrapeFeesAndPolicies`, DOM-reading part. -/
def scrapeFeesAndPolicies (doc : FeesDoc) : FeesPoliciesResult :=
  ⟨feesTabs doc, parseDetails doc⟩

/-- C8: on a page with no tab-button group, where the fixed Pets panel is
present and the Parking, Required Fees and Storage fixed panels are
absent, the result has exactly one tab, labelled `"Pets"`, holding that
panel's retained cards — for every content of the generic tab panels, so
the tertiary scan is never consulted. -/
theorem feesTabs_fixed_pets_fallback :
    ∀ (cards : List CardEl) (btnPanels : List (String × List CardEl))
      (gps : List GenericPanelEl) (elems : List (String × Option String))
      (dels : List DetailsCardEl),
      (scrapeFeesAndPolicies
          ⟨[], btnPanels, some cards, none, none, none, gps, elems, dels⟩).tabs
        = [⟨"Pets", (cards.map parseCard).filter cardKept⟩] := by
  intro cards btnPanels gps elems dels
  rfl

/-! ## Orchestrator (`scrapeApartmentData`).
The remaining record types mirror listing.types.ts.  The orchestration is
embedded over an environment carrying the outcome of each effectful step:
the cache lookup's `data` field, the browser-session steps
(`puppeteer.launch`, `newPage`, `goto`, `title`) collapsed into one
`Except`, one `Except` per section extractor (`Except.error` models a
thrown exception), and the cache insert's `error` field.  The control flow
(`try`/`catch` per best-effort extractor, early return on cache hit,
re-throw of session and Availability failures) is translated directly. -/

structure UnitRow where
  unit : String
  price : String
  sqft : String
  availability : String
deriving DecidableEq

structure ModelCard where
  modelName : String
  headlineRent : String
  details : List String
  availabilitySummary : String
  image : Option String
  units : List UnitRow
  propertyAddress : String
deriving DecidableEq

structure OfficeHour where
  days : String
  hours : String
deriving DecidableEq

structure PhoneInfo where
  formatted : Option String
  digits : Option String
deriving DecidableEq

structure WebsiteInfo where
  url : Option String
  label : Option String
deriving DecidableEq

structure LogoInfo where
  url : Option String
  alt : Option String
  width : Option Nat
  height : Option Nat
deriving DecidableEq

structure ContactInfo where
  phone : Option PhoneInfo
  website : Option WebsiteInfo
  language : Option String
  todaysHours : Option String
  officeHours : List OfficeHour
  logo : Option LogoInfo
deriving DecidableEq

/-- The mandatory part of the record, produced by
`scrapeAvailabilityData`; `bedInfo` is the ordered list of single-entry
`{label: detail}` objects. -/
structure AvailabilityData where
  propertyName : String
  propertyAddress : String
  bedInfo : List (String × String)
  availability : List ModelCard
deriving DecidableEq

structure ScrapedData where
  propertyName : String
  propertyAddress : String
  bedInfo : List (String × String)
  availability : List ModelCard
  feesAndPolicies : Option FeesPoliciesResult
  amenities : Option AmenitiesResult
  contactInfo : Option ContactInfo
deriving DecidableEq

/-- Outcomes of the effectful steps of one `scrapeApartmentData` call. -/
structure ScrapeEnv where
  cachedData : Option ScrapedData
  session : Except String Unit
  availabilityResult : Except String AvailabilityData
  contactResult : Except String ContactInfo
  amenitiesResult : Except String AmenitiesResult
  feesResult : Except String FeesPoliciesResult
  insertError : Option String

/-- The call's result together with whether the browser was launched. -/
structure ScrapeOutcome where
  result : Except String ScrapedData
  browserLaunched : Bool

/-- `const result = { ...availabilityData, contactInfo, amenities,
feesAndPolicies }`. -/
def assemble (a : AvailabilityData) (ci : Option ContactInfo)
    (am : Option AmenitiesResult) (fp : Option FeesPoliciesResult) :
    ScrapedData :=
  ⟨a.propertyName, a.propertyAddress, a.bedInfo, a.availability, fp, am, ci⟩

/-- `scrapeApartmentData`: return the cached record on a hit; otherwise
launch the browser, fail on session or Availability failure, catch each
best-effort extractor's failure (leaving its field absent), assemble the
record, and return it whatever the insert outcome is. -/
def scrapeApartmentData (env : ScrapeEnv) : ScrapeOutcome :=
  match env.cachedData with
  | some d => ⟨Except.ok d, false⟩
  | none =>
    ⟨match env.session with
     | Except.error e => Except.error e
     | Except.ok _ =>
       match env.availabilityResult with
       | Except.error e => Except.error e
       | Except.ok avail =>
         Except.ok (assemble avail env.contactResult.toOption
           env.amenitiesResult.toOption env.feesResult.toOption),
      true⟩

/-- C1: when the address is already a key of the cache store the call
returns the stored record verbatim without launching the browser, and a
second call against the unchanged cache — whatever its other step
outcomes are — returns the identical record, again as a pure cache
read. -/
theorem scrape_cache_hit (env1 env2 : ScrapeEnv) (d : ScrapedData)
    (h1 : env1.cachedData = some d) (h2 : env2.cachedData = env1.cachedData) :
    scrapeApartmentData env1 = ⟨Except.ok d, false⟩ ∧
      scrapeApartmentData env2 = ⟨Except.ok d, false⟩ ∧
      (scrapeApartmentData env2).result = (scrapeApartmentData env1).result := by
  have e1 : scrapeApartmentData env1 = ⟨Except.ok d, false⟩ := by
    rw [scrapeApartmentData, h1]
  have e2 : scrapeApartmentData env2 = ⟨Except.ok d, false⟩ := by
    rw [scrapeApartmentData, h2, h1]
  exact ⟨e1, e2, by rw [e1, e2]⟩

/-- A record returned on a cache hit, for the C1 witness. -/
def sampleRecord : ScrapedData :=
  ⟨"Sample Property", "1 Main St", [("Studio", "$1,000")], [],
    none, none, none⟩

/-- An environment whose cache holds `sampleRecord` while every browser
step would fail, for the C1 witness. -/
def sampleHitEnv : ScrapeEnv :=
  ⟨some sampleRecord, Except.error "launch failed",
    Except.error "no availability", Except.error "no contact",
    Except.error "no amenities", Except.error "no fees",
    some "insert failed"⟩

/-- Witness for C1 at the concrete environment `sampleHitEnv`. -/
theorem scrape_cache_hit_witness :
    scrapeApartmentData sampleHitEnv = ⟨Except.ok sampleRecord, false⟩ ∧
      scrapeApartmentData sampleHitEnv = ⟨Except.ok sampleRecord, false⟩ ∧
      (scrapeApartmentData sampleHitEnv).result
        = (scrapeApartmentData sampleHitEnv).result :=
  scrape_cache_hit sampleHitEnv sampleHitEnv sampleRecord rfl rfl

/-- `true` exactly when the call threw. -/
def failed (x : Except String α) : Bool :=
  match x with
  | Except.error _ => true
  | Except.ok _ => false

/-- C2: the call fails iff the cache missed and the session or the
mandatory Availability extractor failed; failures of the best-effort
extractors (universally quantified here) and of the cache write never
make the call fail. -/
theorem scrape_failure_condition (env : ScrapeEnv) :
    (failed (scrapeApartmentData env).result = true ↔
        (env.cachedData = none ∧
          (failed env.session = true ∨
            failed env.availabilityResult = true))) ∧
      (∀ e, (scrapeApartmentData { env with insertError := e }).result
          = (scrapeApartmentData env).result) := by
  constructor
  · cases hc : env.cachedData with
    | some d => simp [scrapeApartmentData, hc, failed]
    | none =>
      cases hs : env.session with
      | error e => simp [scrapeApartmentData, hc, hs, failed]
      | ok u =>
        cases ha : env.availabilityResult with
        | error e => simp [scrapeApartmentData, hc, hs, ha, failed]
        | ok avail => simp [scrapeApartmentData, hc, hs, ha, failed]
  · intro e
    cases hc : env.cachedData with
    | some d => simp [scrapeApartmentData, hc]
    | none => simp [scrapeApartmentData, hc]

/-- C3: if the Amenities extractor throws while the cache misses, the
session succeeds and the Availability extractor succeeds, the call still
returns a record whose `amenities` field is absent and whose every other
field equals the corresponding field of the record of the same run with
the Amenities failure replaced by any other outcome. -/
theorem scrape_amenities_frame (env : ScrapeEnv) (e : String)
    (avail : AvailabilityData)
    (h1 : env.cachedData = none) (h2 : env.session = Except.ok ())
    (h3 : env.availabilityResult = Except.ok avail) :
    ∃ r rf : ScrapedData,
      (scrapeApartmentData env).result = Except.ok r ∧
        (scrapeApartmentData
            { env with amenitiesResult := Except.error e }).result
          = Except.ok rf ∧
        rf.amenities = none ∧
        rf.propertyName = r.propertyName ∧
        rf.propertyAddress = r.propertyAddress ∧
        rf.bedInfo = r.bedInfo ∧
        rf.availability = r.availability ∧
        rf.contactInfo = r.contactInfo ∧
        rf.feesAndPolicies = r.feesAndPolicies := by
  refine ⟨assemble avail env.contactResult.toOption
      env.amenitiesResult.toOption env.feesResult.toOption,
    assemble avail env.contactResult.toOption none env.feesResult.toOption,
    ?_, ?_, rfl, rfl, rfl, rfl, rfl, rfl, rfl⟩
  · rw [scrapeApartmentData, h1, h2, h3]
  · rw [scrapeApartmentData]
    simp only [h1, h2, h3]
    rfl

/-- An environment for the C3 witness: cache miss, session and
Availability succeed, the other extractors succeed with empty results. -/
def sampleMissEnv : ScrapeEnv :=
  ⟨none, Except.ok (),
    Except.ok ⟨"Sample Property", "1 Main St", [("Studio", "$1,000")], []⟩,
    Except.ok ⟨none, none, none, none, [], none⟩,
    Except.ok ⟨none, none⟩,
    Except.ok ⟨[], []⟩,
    none⟩

/-- Witness for C3 at the concrete environment `sampleMissEnv`. -/
theorem scrape_amenities_frame_witness :
    ∃ r rf : ScrapedData,
      (scrapeApartmentData sampleMissEnv).result = Except.ok r ∧
        (scrapeApartmentData
            { sampleMissEnv with
              amenitiesResult := Except.error "amenities threw" }).result
          = Except.ok rf ∧
        rf.amenities = none ∧
        rf.propertyName = r.propertyName ∧
        rf.propertyAddress = r.propertyAddress ∧
        rf.bedInfo = r.bedInfo ∧
        rf.availability = r.availability ∧
        rf.contactInfo = r.contactInfo ∧
        rf.feesAndPolicies = r.feesAndPolicies :=
  scrape_amenities_frame sampleMissEnv "amenities threw"
    ⟨"Sample Property", "1 Main St", [("Studio", "$1,000")], []⟩
    rfl rfl rfl

/-! ## PDF merge (`mergePdfs` in pdf.service.ts).
A loaded document is its page list (pages are abstract, order-preserving
tokens; `copyPages` with `getPageIndices` copies every page in order, and
`addPage` appends).  Loading and per-document processing (optional header
stamping via `addHeaderToPdf`, then `PDFDocument.load`) can throw; for
each additional document the combined outcome of those steps is an
`Except`, since the source wraps exactly those steps of one loop
iteration in the `try` whose `catch` skips the document. -/

/-- `mergePdfs`: all pages of the base document, then, for each
additional document in input order, its pages when its processing
succeeded, nothing when it threw; a base-document failure fails the whole
merge. -/
def mergePdfs {α : Type} (baseLoad : Except String (List α))
    (additionalLoads : List (Except String (List α))) :
    Except String (List α) :=
  match baseLoad with
  | Except.error e => Except.error ("Failed to merge PDFs: " ++ e)
  | Except.ok basePages =>
    Except.ok (additionalLoads.foldl
      (fun acc r =>
        match r with
        | Except.ok pages => acc ++ pages
        | Except.error _ => acc) basePages)

theorem foldl_merge_eq {α : Type} (l : List (Except String (List α))) :
    ∀ acc : List α,
      l.foldl (fun acc r =>
          match r with
          | Except.ok pages => acc ++ pages
          | Except.error _ => acc) acc
        = acc ++ (l.filterMap Except.toOption).flatten := by
  induction l with
  | nil => intro acc; simp
  | cons r l ih =>
    intro acc
    cases r with
    | ok pages =>
      rw [List.foldl_cons]
      show List.foldl _ (acc ++ pages) l = _
      rw [ih (acc ++ pages)]
      simp [Except.toOption, List.append_assoc]
    | error e =>
      rw [List.foldl_cons]
      show List.foldl _ acc l = _
      rw [ih acc]
      simp [Except.toOption]

/-- C9: when the base document loads, the merge succeeds and produces the
base pages followed by the pages of every successfully processed
additional document in input order; in particular when exactly one
additional document fails it is skipped and every other document's pages
appear, in order. -/
theorem mergePdfs_spec {α : Type} :
    (∀ (basePages : List α) (adds : List (Except String (List α))),
        mergePdfs (Except.ok basePages) adds
          = Except.ok (basePages ++ (adds.filterMap Except.toOption).flatten)) ∧
      (∀ (basePages : List α) (before after : List (List α)) (e : String),
        mergePdfs (Except.ok basePages)
            (before.map Except.ok ++ [Except.error e] ++ after.map Except.ok)
          = Except.ok (basePages ++ before.flatten ++ after.flatten)) := by
  have key : ∀ (basePages : List α) (adds : List (Except String (List α))),
      mergePdfs (Except.ok basePages) adds
        = Except.ok (basePages ++ (adds.filterMap Except.toOption).flatten) := by
    intro basePages adds
    rw [mergePdfs, foldl_merge_eq]
  refine ⟨key, ?_⟩
  intro basePages before after e
  rw [key]
  have hco : ∀ l : List (List α),
      List.filterMap Except.toOption
          (l.map (Except.ok : List α → Except String (List α)))
        = l := by
    intro l
    induction l with
    | nil => rfl
    | cons x xs ih => simp [Except.toOption, ih]
  simp [Except.toOption, List.append_assoc, hco]

end SaseBackend
